import Mathlib

/-!
# ParamStock — alert store and scheduler loop, shallowly embedded

Embedding of the alert data model and operations of `src/backend.py`
(the `Alert` model, the `/api/add_alert`, `/api/get_alerts`,
`/api/delete_alert` endpoints and the `price_checker_worker` loop body)
and of the older revision `src/app.py` / `src/price_checker.py`
(its `Alert` model, `add_alert`, `get_alerts` and the condition check of
`check_all_alerts`).

Prices are `float` in Python; only order comparisons (`>=`, `<=`, and the
truthiness test `if not price`) are applied to them, so they are modelled
as rationals (`ℚ`), on which those comparisons agree with IEEE floats on
finite values.
-/

namespace ParamStock

/-- `backend.py` lines 36-43: the `Alert` database model.  `id` is the
integer primary key; `status` of the spec is realized as the boolean
`alert_sent` (`False` = Pending, `True` = Triggered). -/
structure Alert where
  id : Nat
  user_phone_number : String
  ticker : String
  target_price : ℚ
  condition : String
  delete_on_trigger : Bool
  alert_sent : Bool
deriving DecidableEq, Repr

/-- The alerts table plus the autoincrement counter that assigns the next
primary key. A row's insertion order is its position in `alerts`. -/
structure Store where
  alerts : List Alert
  next_id : Nat
deriving DecidableEq, Repr

/-- `backend.py` lines 118-119:
`triggered = (alert.condition == 'above' and price >= alert.target_price) or
(alert.condition == 'below' and price <= alert.target_price)`. -/
def triggered (condition : String) (price target_price : ℚ) : Bool :=
  (condition == "above" && decide (price ≥ target_price)) ||
  (condition == "below" && decide (price ≤ target_price))

/-- `price_checker.py` lines 132-136: the `if`/`elif` computing
`alert_triggered` in `check_all_alerts`. -/
def alert_triggered (condition : String) (price target_price : ℚ) : Bool :=
  if condition == "below" && decide (price ≤ target_price) then true
  else if condition == "above" && decide (price ≥ target_price) then true
  else false

/-- `backend.py` lines 46-52 (`add_alert`): builds the row from the posted
fields with `ticker=data['ticker'].upper()` and commits it.  There is no
validation of the price, the phone number, the ticker or the condition
string; `alert_sent` defaults to `False`, the primary key autoincrements. -/
def add_alert (s : Store) (phone_number ticker : String) (target_price : ℚ)
    (condition : String) (delete_on_trigger : Bool) : Store :=
  { alerts := s.alerts ++
      [⟨s.next_id, phone_number, ticker.toUpper, target_price, condition,
        delete_on_trigger, false⟩],
    next_id := s.next_id + 1 }

/-- `backend.py` lines 54-60 (`get_alerts`):
`Alert.query.filter_by(user_phone_number=phone_number).all()` — a filter of
the table with no `order_by`, returned in table (rowid) order. -/
def get_alerts (s : Store) (phone_number : String) : List Alert :=
  s.alerts.filter (fun a => a.user_phone_number == phone_number)

/-- The two outcomes of the `/api/delete_alert` endpoint: HTTP 200
`'Alert deleted!'` or HTTP 404 `'Alert not found'`. -/
inductive DeleteResult where
  | deleted
  | notFound
deriving DecidableEq, Repr

/-- `backend.py` lines 62-69 (`delete_alert`): `Alert.query.get(alert_id)`;
when a row with that primary key exists it is deleted and committed,
otherwise nothing is touched and 404 is returned. -/
def delete_alert (s : Store) (alert_id : Nat) : Store × DeleteResult :=
  match s.alerts.find? (fun a => a.id == alert_id) with
  | some _ => ({ s with alerts := s.alerts.filter (fun a => a.id ≠ alert_id) },
               .deleted)
  | none => (s, .notFound)

/-- `backend.py` line 112: the scheduler's fetch
`Alert.query.filter_by(alert_sent=False).all()` — the Pending alerts. -/
def list_pending (s : Store) : List Alert :=
  s.alerts.filter (fun a => a.alert_sent == false)

/-- `alert.alert_sent = True; db.session.commit()` (`backend.py` line 132):
the row with this primary key gets `alert_sent = True`. -/
def mark_sent (alerts : List Alert) (i : Nat) : List Alert :=
  alerts.map (fun b => if b.id = i then { b with alert_sent := true } else b)

/-- `db.session.delete(alert); db.session.commit()` (`backend.py` line 130):
the row with this primary key is removed. -/
def remove_id (alerts : List Alert) (i : Nat) : List Alert :=
  alerts.filter (fun b => b.id ≠ i)

/-- One iteration of the `for alert in active_alerts` body of
`price_checker_worker` (`backend.py` lines 113-133), acting on the store and
the cycle's delivery log.

* `quote` models `get_stock_price` (external `yfinance` call): `none` when it
  returns `None`; `if not price: continue` also skips a price of `0`.
* `deliver_ok` models whether the Twilio `messages.create` call succeeds for
  this alert's id; the exception is caught (lines 123-127) and only printed,
  so the outcome decides nothing — the attempt `(a.id, deliver_ok a.id)` is
  logged and the commit happens either way.
* On trigger: the row is deleted when `delete_on_trigger`, else marked sent
  (lines 129-133). -/
def process_alert (quote : String → Option ℚ) (deliver_ok : Nat → Bool)
    (st : Store × List (Nat × Bool)) (a : Alert) : Store × List (Nat × Bool) :=
  match quote a.ticker with
  | none => st
  | some price =>
    if price = 0 then st
    else if triggered a.condition price a.target_price then
      let log := st.2 ++ [(a.id, deliver_ok a.id)]
      if a.delete_on_trigger then
        ({ st.1 with alerts := remove_id st.1.alerts a.id }, log)
      else
        ({ st.1 with alerts := mark_sent st.1.alerts a.id }, log)
    else st

/-- One full cycle of the `while True` loop of `price_checker_worker`
(`backend.py` lines 110-133): fetch the Pending snapshot, then process each
fetched alert in order.  Returns the store and the list of delivery attempts
`(alert id, delivery outcome)` made during this cycle. -/
def run_cycle (quote : String → Option ℚ) (deliver_ok : Nat → Bool)
    (s : Store) : Store × List (Nat × Bool) :=
  (list_pending s).foldl (process_alert quote deliver_ok) (s, [])

/-- The store after `n` cycles; `quotes k` and `delivers k` are the quote
source and notifier outcomes during cycle `k`. -/
def run_cycles (quotes : Nat → String → Option ℚ)
    (delivers : Nat → Nat → Bool) (s : Store) : Nat → Store
  | 0 => s
  | n + 1 => (run_cycle (quotes n) (delivers n) (run_cycles quotes delivers s n)).1

/-- The delivery attempts logged during cycle `n` (the cycle taking
`run_cycles … n` to `run_cycles … (n+1)`). -/
def cycle_log (quotes : Nat → String → Option ℚ)
    (delivers : Nat → Nat → Bool) (s : Store) (n : Nat) : List (Nat × Bool) :=
  (run_cycle (quotes n) (delivers n) (run_cycles quotes delivers s n)).2

/-- Database well-formedness: primary keys are unique and below the
autoincrement counter.  Holds of the empty table and is preserved by every
operation. -/
def Wf (s : Store) : Prop :=
  (s.alerts.map (fun a => a.id)).Nodup ∧ ∀ a ∈ s.alerts, a.id < s.next_id

/-- No Pending row has primary key `i`: the id was never used, or its alert
is already Triggered, or its row was deleted. -/
def noPending (alerts : List Alert) (i : Nat) : Prop :=
  ∀ b ∈ alerts, b.id = i → b.alert_sent = true

example : triggered "above" 100 100 = true := by decide
example : triggered "below" 100 100 = true := by decide
example : triggered "above" 90 100 = false := by decide
example : triggered "gte" 105 100 = false := by decide
example : alert_triggered "below" 40 50 = true := by decide

/-! ## The older revision: `src/app.py` -/

/-- `app.py` lines 13-19: its `Alert` model — no `delete_on_trigger`
column, owner field named `phone_number`. -/
structure AppAlert where
  id : Nat
  phone_number : String
  ticker : String
  target_price : ℚ
  condition : String
  alert_sent : Bool
deriving DecidableEq, Repr

/-- The `app.py` alerts table with its autoincrement counter. -/
structure AppStore where
  alerts : List AppAlert
  next_id : Nat
deriving DecidableEq, Repr

/-- `app.py` lines 26-40 (`add_alert`), after the required-keys check
passes: builds the row with
`ticker=f"{data['ticker'].upper()}.NS"` — uppercase *and* a hard-coded
`.NS` suffix — and commits it. -/
def app_add_alert (s : AppStore) (phone_number ticker : String)
    (target_price : ℚ) (condition : String) : AppStore :=
  { alerts := s.alerts ++
      [⟨s.next_id, phone_number, ticker.toUpper ++ ".NS", target_price,
        condition, false⟩],
    next_id := s.next_id + 1 }

/-- `app.py` lines 43-53 (`get_alerts`):
`Alert.query.filter_by(phone_number=phone_number).all()`. -/
def app_get_alerts (s : AppStore) (phone_number : String) : List AppAlert :=
  s.alerts.filter (fun a => a.phone_number == phone_number)

/-! ## Spec-side definitions (for refinement comparison only)

These follow the spec's words, not the source, and exist to be compared
with the behaviour of the source-derived definitions above. -/

/-- Strict lexicographic order on strings by code point, structurally
recursive so that concrete instances evaluate. -/
def strLtB : List Char → List Char → Bool
  | [], [] => false
  | [], _ :: _ => true
  | _ :: _, [] => false
  | c :: cs, d :: ds =>
    if c.toNat < d.toNat then true
    else if d.toNat < c.toNat then false
    else strLtB cs ds

/-- Modelled from the spec: the order "by instrument then id" that §4.2
prescribes for `list_by_owner`. -/
def instThenId (a b : Alert) : Prop :=
  strLtB a.ticker.data b.ticker.data = true ∨ (a.ticker = b.ticker ∧ a.id ≤ b.id)

instance : DecidableRel instThenId := fun a b => by
  unfold instThenId; infer_instance

/-- Modelled from the spec: a list sorted by instrument then id. -/
def sortedByInstrumentThenId (l : List Alert) : Prop :=
  l.Pairwise instThenId

instance (l : List Alert) : Decidable (sortedByInstrumentThenId l) := by
  unfold sortedByInstrumentThenId; infer_instance

example :
    ¬ sortedByInstrumentThenId
      [⟨1, "p", "ZZZ", 10, "above", false, false⟩,
       ⟨2, "p", "AAA", 10, "above", false, false⟩] := by decide

example :
    (app_get_alerts (app_add_alert ⟨[], 1⟩ "p" "tcs" 100 "above") "p").map
      (fun a => a.ticker) = ["tcs".toUpper ++ ".NS"] := rfl

/-! ## Helper definitions and lemmas -/

/-- The ids for which a delivery attempt was logged. -/
def logIds (log : List (Nat × Bool)) : List Nat := log.map Prod.fst

/-- No row at all has primary key `i`. -/
def noRow (alerts : List Alert) (i : Nat) : Prop :=
  ∀ b ∈ alerts, b.id ≠ i

/-- `app.py` table well-formedness, as `Wf`. -/
def WfApp (s : AppStore) : Prop :=
  (s.alerts.map (fun a => a.id)).Nodup ∧ ∀ a ∈ s.alerts, a.id < s.next_id

/-- Each loop iteration either leaves store and log alone, or (on trigger)
logs one delivery attempt for the alert's id and deletes or marks its row. -/
lemma process_alert_cases (q : String → Option ℚ) (d : Nat → Bool)
    (st : Store × List (Nat × Bool)) (a : Alert) :
    process_alert q d st a = st ∨
    (a.delete_on_trigger = true ∧
      process_alert q d st a =
        ({ st.1 with alerts := remove_id st.1.alerts a.id },
          st.2 ++ [(a.id, d a.id)])) ∨
    (a.delete_on_trigger = false ∧
      process_alert q d st a =
        ({ st.1 with alerts := mark_sent st.1.alerts a.id },
          st.2 ++ [(a.id, d a.id)])) := by
  unfold process_alert
  cases hq : q a.ticker with
  | none => exact Or.inl rfl
  | some p =>
    by_cases h0 : p = 0
    · exact Or.inl (by simp [h0])
    · by_cases ht : triggered a.condition p a.target_price = true
      · by_cases hd : a.delete_on_trigger = true
        · exact Or.inr (Or.inl ⟨hd, by simp [h0, ht, hd]⟩)
        · exact Or.inr (Or.inr ⟨by simpa using hd, by simp [h0, ht, hd]⟩)
      · exact Or.inl (by simp [h0, ht])

/-- When the snapshot record `a` is triggered by the quoted price, the
iteration commits: delete when `delete_on_trigger`, else mark sent; the
delivery attempt is logged either way. -/
lemma process_alert_commits (q : String → Option ℚ) (d : Nat → Bool)
    (st : Store × List (Nat × Bool)) (a : Alert) (p : ℚ)
    (hq : q a.ticker = some p) (h0 : p ≠ 0)
    (ht : triggered a.condition p a.target_price = true) :
    process_alert q d st a =
      (if a.delete_on_trigger then
        { st.1 with alerts := remove_id st.1.alerts a.id }
       else { st.1 with alerts := mark_sent st.1.alerts a.id },
       st.2 ++ [(a.id, d a.id)]) := by
  unfold process_alert
  rw [hq]
  by_cases hd : a.delete_on_trigger = true <;> simp [h0, ht, hd]

/-- An iteration whose snapshot record never triggers (whatever the price)
changes nothing. -/
lemma process_alert_skip (q : String → Option ℚ) (d : Nat → Bool)
    (st : Store × List (Nat × Bool)) (a : Alert)
    (h : ∀ p : ℚ, triggered a.condition p a.target_price = false) :
    process_alert q d st a = st := by
  unfold process_alert
  cases q a.ticker with
  | none => rfl
  | some p =>
    by_cases h0 : p = 0
    · simp [h0]
    · simp [h0, h p]

/-- `mark_sent` keeps every primary key as it was. -/
lemma mark_sent_map_id (l : List Alert) (i : Nat) :
    (mark_sent l i).map (fun b => b.id) = l.map (fun b => b.id) := by
  unfold mark_sent
  rw [List.map_map]
  apply List.map_congr_left
  intro b _
  by_cases h : b.id = i <;> simp [h]

/-- A row whose key is not the marked one is untouched by `mark_sent`. -/
lemma mem_mark_sent_of_ne {a : Alert} {l : List Alert} {i : Nat}
    (h : a ∈ l) (hne : a.id ≠ i) : a ∈ mark_sent l i := by
  unfold mark_sent
  exact List.mem_map.mpr ⟨a, h, by simp [hne]⟩

/-- A row whose key is not the deleted one is untouched by `remove_id`. -/
lemma mem_remove_id_of_ne {a : Alert} {l : List Alert} {i : Nat}
    (h : a ∈ l) (hne : a.id ≠ i) : a ∈ remove_id l i := by
  unfold remove_id
  exact List.mem_filter.mpr ⟨h, by simp [hne]⟩

/-- Marking a row Triggered cannot create a Pending row. -/
lemma noPending_mark_sent {l : List Alert} {j : Nat} (i : Nat)
    (h : noPending l j) : noPending (mark_sent l i) j := by
  intro b hb hid
  rcases List.mem_map.mp hb with ⟨c, hc, hbc⟩
  by_cases hci : c.id = i
  · simp [hci] at hbc
    rw [← hbc]
  · simp [hci] at hbc
    subst hbc
    exact h c hc hid

/-- Deleting a row cannot create a Pending row. -/
lemma noPending_remove_id {l : List Alert} {j : Nat} (i : Nat)
    (h : noPending l j) : noPending (remove_id l i) j :=
  fun b hb => h b (List.mem_of_mem_filter hb)

/-- After `mark_sent l i`, no Pending row has key `i`. -/
lemma noPending_mark_sent_self (l : List Alert) (i : Nat) :
    noPending (mark_sent l i) i := by
  intro b hb hid
  rcases List.mem_map.mp hb with ⟨c, hc, hbc⟩
  by_cases hci : c.id = i
  · simp [hci] at hbc
    rw [← hbc]
  · simp [hci] at hbc
    subst hbc
    exact absurd hid hci

/-- After `remove_id l i`, no row at all has key `i`. -/
lemma noRow_remove_id_self (l : List Alert) (i : Nat) :
    noRow (remove_id l i) i := by
  intro b hb
  have := List.of_mem_filter hb
  simpa using this

/-- `remove_id` never adds a row with key `i`. -/
lemma noRow_remove_id {l : List Alert} {j : Nat} (i : Nat)
    (h : noRow l j) : noRow (remove_id l i) j :=
  fun b hb => h b (List.mem_of_mem_filter hb)

/-- `mark_sent` never adds a row with key `i`. -/
lemma noRow_mark_sent {l : List Alert} {j : Nat} (i : Nat)
    (h : noRow l j) : noRow (mark_sent l i) j := by
  intro b hb
  rcases List.mem_map.mp hb with ⟨c, hc, hbc⟩
  by_cases hci : c.id = i
  · simp [hci] at hbc
    rw [← hbc]
    simpa using hci ▸ h c hc
  · simp [hci] at hbc
    rw [← hbc]
    exact h c hc

/-- A property preserved by every step of a fold holds of the fold. -/
lemma foldl_inv {α σ : Type _} (f : σ → α → σ) (Inv : σ → Prop) :
    ∀ (l : List α) (s : σ), Inv s → (∀ t a, a ∈ l → Inv t → Inv (f t a)) →
      Inv (l.foldl f s)
  | [], _, hs, _ => hs
  | b :: l, s, hs, hf =>
    foldl_inv f Inv l (f s b) (hf s b (List.mem_cons_self b l) hs)
      (fun t a ha => hf t a (List.mem_cons_of_mem b ha))

lemma logIds_append (l₁ l₂ : List (Nat × Bool)) :
    logIds (l₁ ++ l₂) = logIds l₁ ++ logIds l₂ := by
  simp [logIds]

/-- The loop never touches the autoincrement counter. -/
lemma process_alert_next_id (q : String → Option ℚ) (d : Nat → Bool)
    (st : Store × List (Nat × Bool)) (a : Alert) :
    (process_alert q d st a).1.next_id = st.1.next_id := by
  rcases process_alert_cases q d st a with h | ⟨_, h⟩ | ⟨_, h⟩ <;> rw [h]

/-- The cycle's log grows left to right; the attempted alert ids form a
subsequence of the ids fed to the fold. -/
lemma foldl_log_sublist (q : String → Option ℚ) (d : Nat → Bool) :
    ∀ (l : List Alert) (st : Store × List (Nat × Bool)),
      ∃ t, (l.foldl (process_alert q d) st).2 = st.2 ++ t ∧
        List.Sublist (t.map Prod.fst) (l.map (fun a => a.id))
  | [], st => ⟨[], by simp⟩
  | b :: l, st => by
    rcases foldl_log_sublist q d l (process_alert q d st b) with ⟨t, ht, hsub⟩
    rcases process_alert_cases q d st b with h | ⟨_, h⟩ | ⟨_, h⟩
    · refine ⟨t, ?_, ?_⟩
      · rw [List.foldl_cons, ht, h]
      · exact hsub.trans (List.sublist_cons_self _ _)
    · refine ⟨(b.id, d b.id) :: t, ?_, ?_⟩
      · rw [List.foldl_cons, ht, h]
        simp
      · simpa using hsub.cons₂ b.id
    · refine ⟨(b.id, d b.id) :: t, ?_, ?_⟩
      · rw [List.foldl_cons, ht, h]
        simp
      · simpa using hsub.cons₂ b.id

lemma run_cycle_log_sublist (q : String → Option ℚ) (d : Nat → Bool) (s : Store) :
    List.Sublist (logIds (run_cycle q d s).2)
      ((list_pending s).map (fun a => a.id)) := by
  unfold run_cycle
  rcases foldl_log_sublist q d (list_pending s) (s, []) with ⟨t, ht, hsub⟩
  rw [logIds, ht]
  simpa using hsub

/-- A key with no Pending row keeps having none through a cycle. -/
lemma run_cycle_noPending (q : String → Option ℚ) (d : Nat → Bool)
    {s : Store} {i : Nat} (h : noPending s.alerts i) :
    noPending (run_cycle q d s).1.alerts i := by
  unfold run_cycle
  refine foldl_inv (process_alert q d)
    (fun st => noPending st.1.alerts i) (list_pending s) (s, []) h ?_
  intro t a _ hI
  rcases process_alert_cases q d t a with hc | ⟨_, hc⟩ | ⟨_, hc⟩
  · rw [hc]; exact hI
  · rw [hc]; exact noPending_remove_id _ hI
  · rw [hc]; exact noPending_mark_sent _ hI

/-- A key with no Pending row is not notified during a cycle. -/
lemma run_cycle_not_notified (q : String → Option ℚ) (d : Nat → Bool)
    {s : Store} {i : Nat} (h : noPending s.alerts i) :
    i ∉ logIds (run_cycle q d s).2 := by
  intro hmem
  have hin := (run_cycle_log_sublist q d s).subset hmem
  rcases List.mem_map.mp hin with ⟨b, hb, hbi⟩
  have hpend := List.mem_filter.mp hb
  have hsent : b.alert_sent = true := h b hpend.1 hbi
  simp [hsent] at hpend

lemma noPending_of_noRow {l : List Alert} {i : Nat} (h : noRow l i) :
    noPending l i :=
  fun b hb hid => absurd hid (h b hb)

/-- A key notified during a cycle has no Pending row once the cycle ends:
its row was deleted or marked sent right after the delivery attempt. -/
lemma run_cycle_notified_noPending (q : String → Option ℚ) (d : Nat → Bool)
    (s : Store) (i : Nat) (h : i ∈ logIds (run_cycle q d s).2) :
    noPending (run_cycle q d s).1.alerts i := by
  unfold run_cycle at h ⊢
  refine foldl_inv (process_alert q d)
    (fun st => i ∈ logIds st.2 → noPending st.1.alerts i) _ (s, [])
    (by intro hmem; simp [logIds] at hmem) ?_ h
  intro t a _ hI
  rcases process_alert_cases q d t a with hc | ⟨_, hc⟩ | ⟨_, hc⟩
  · rw [hc]; exact hI
  · rw [hc]
    intro hmem
    rw [logIds_append] at hmem
    rcases List.mem_append.mp hmem with h1 | h2
    · exact noPending_remove_id _ (hI h1)
    · simp [logIds] at h2
      subst h2
      exact noPending_of_noRow (noRow_remove_id_self _ _)
  · rw [hc]
    intro hmem
    rw [logIds_append] at hmem
    rcases List.mem_append.mp hmem with h1 | h2
    · exact noPending_mark_sent _ (hI h1)
    · simp [logIds] at h2
      subst h2
      exact noPending_mark_sent_self _ _

/-- A row is carried through a cycle untouched when every Pending alert
with its key is processed as a no-op (in particular when no Pending alert
has its key). -/
lemma run_cycle_row_preserved (q : String → Option ℚ) (d : Nat → Bool)
    {s : Store} {a : Alert} (h : a ∈ s.alerts)
    (hself : ∀ b ∈ list_pending s, b.id = a.id →
      ∀ st, process_alert q d st b = st) :
    a ∈ (run_cycle q d s).1.alerts := by
  unfold run_cycle
  refine foldl_inv (process_alert q d) (fun st => a ∈ st.1.alerts)
    (list_pending s) (s, []) h ?_
  intro t b hb hI
  by_cases hid : b.id = a.id
  · rw [hself b hb hid t]; exact hI
  · rcases process_alert_cases q d t b with hc | ⟨_, hc⟩ | ⟨_, hc⟩
    · rw [hc]; exact hI
    · rw [hc]; exact mem_remove_id_of_ne hI (Ne.symm hid)
    · rw [hc]; exact mem_mark_sent_of_ne hI (Ne.symm hid)

/-- A key is not notified during a cycle when every Pending alert with that
key is processed as a no-op. -/
lemma run_cycle_not_notified_of_skip (q : String → Option ℚ) (d : Nat → Bool)
    {s : Store} {i : Nat}
    (hself : ∀ b ∈ list_pending s, b.id = i →
      ∀ st, process_alert q d st b = st) :
    i ∉ logIds (run_cycle q d s).2 := by
  unfold run_cycle
  refine foldl_inv (process_alert q d) (fun st => i ∉ logIds st.2)
    (list_pending s) (s, []) (by simp [logIds]) ?_
  intro t b hb hI
  by_cases hid : b.id = i
  · rw [hself b hb hid t]; exact hI
  · rcases process_alert_cases q d t b with hc | ⟨_, hc⟩ | ⟨_, hc⟩
    · rw [hc]; exact hI
    all_goals
      rw [hc]
      intro hmem
      rw [logIds_append] at hmem
      rcases List.mem_append.mp hmem with h1 | h2
      · exact hI h1
      · simp [logIds] at h2
        exact hid h2.symm

/-- The table stays well-formed through a cycle. -/
lemma run_cycle_wf (q : String → Option ℚ) (d : Nat → Bool)
    {s : Store} (h : Wf s) : Wf (run_cycle q d s).1 := by
  unfold run_cycle
  refine foldl_inv (process_alert q d)
    (fun st => Wf st.1 ∧ st.1.next_id = s.next_id)
    (list_pending s) (s, []) ⟨h, rfl⟩ ?_ |>.1
  intro t b _ hI
  rcases process_alert_cases q d t b with hc | ⟨_, hc⟩ | ⟨_, hc⟩
  · rw [hc]; exact hI
  · rw [hc]
    refine ⟨⟨?_, ?_⟩, hI.2⟩
    · exact List.Nodup.sublist ((List.filter_sublist _).map _) hI.1.1
    · intro c hc2
      exact hI.1.2 c (List.mem_of_mem_filter hc2)
  · rw [hc]
    refine ⟨⟨?_, ?_⟩, hI.2⟩
    · rw [mark_sent_map_id]; exact hI.1.1
    · intro c hc2
      rcases List.mem_map.mp hc2 with ⟨e, he, hce⟩
      by_cases hei : e.id = b.id
      · simp [hei] at hce
        rw [← hce]
        simpa using hei ▸ hI.1.2 e he
      · simp [hei] at hce
        rw [← hce]
        exact hI.1.2 e he

/-- With unique keys, a Triggered row means its key has no Pending row. -/
lemma noPending_of_sent {s : Store} {a : Alert} (hw : Wf s)
    (ha : a ∈ s.alerts) (hs : a.alert_sent = true) :
    noPending s.alerts a.id := by
  intro b hb hid
  have hba : b = a := List.inj_on_of_nodup_map hw.1 hb ha hid
  rw [hba]; exact hs

/-! ### Multi-cycle lemmas -/

lemma run_cycles_wf (q : Nat → String → Option ℚ) (d : Nat → Nat → Bool)
    {s : Store} (h : Wf s) : ∀ n, Wf (run_cycles q d s n)
  | 0 => h
  | n + 1 => run_cycle_wf (q n) (d n) (run_cycles_wf q d h n)

lemma run_cycles_noPending (q : Nat → String → Option ℚ)
    (d : Nat → Nat → Bool) {s : Store} {i : Nat} (h : noPending s.alerts i) :
    ∀ n, noPending (run_cycles q d s n).alerts i
  | 0 => h
  | n + 1 => run_cycle_noPending (q n) (d n) (run_cycles_noPending q d h n)

lemma cycle_log_not_notified (q : Nat → String → Option ℚ)
    (d : Nat → Nat → Bool) {s : Store} {i : Nat}
    (h : noPending s.alerts i) (n : Nat) :
    i ∉ logIds (cycle_log q d s n) :=
  run_cycle_not_notified (q n) (d n) (run_cycles_noPending q d h n)

/-- Once a key has been notified during some cycle, no later cycle ever
notifies it again. -/
lemma notified_at_most_once (q : Nat → String → Option ℚ)
    (d : Nat → Nat → Bool) (s : Store) (i : Nat) {n m : Nat} (hnm : n < m)
    (h : i ∈ logIds (cycle_log q d s n)) :
    i ∉ logIds (cycle_log q d s m) := by
  have h1 : noPending (run_cycles q d s (n + 1)).alerts i :=
    run_cycle_notified_noPending (q n) (d n) (run_cycles q d s n) i h
  have h2 : ∀ k, noPending (run_cycles q d s (n + 1 + k)).alerts i := by
    intro k
    induction k with
    | zero => exact h1
    | succ k ih =>
      have : n + 1 + (k + 1) = (n + 1 + k) + 1 := by omega
      rw [this]
      exact run_cycle_noPending _ _ ih
  obtain ⟨k, rfl⟩ : ∃ k, m = n + 1 + k := ⟨m - (n + 1), by omega⟩
  exact run_cycle_not_notified _ _ (h2 k)

/-- With unique keys, each cycle attempts delivery at most once per key. -/
lemma cycle_log_nodup (q : Nat → String → Option ℚ) (d : Nat → Nat → Bool)
    {s : Store} (h : Wf s) (n : Nat) :
    (logIds (cycle_log q d s n)).Nodup := by
  have hw := run_cycles_wf q d h n
  have hsub := run_cycle_log_sublist (q n) (d n) (run_cycles q d s n)
  have hsub2 : List.Sublist
      ((list_pending (run_cycles q d s n)).map (fun a => a.id))
      ((run_cycles q d s n).alerts.map (fun a => a.id)) :=
    (List.filter_sublist _).map _
  exact List.Nodup.sublist (hsub.trans hsub2) hw.1

/-- A Triggered row survives, verbatim, every later cycle. -/
lemma sent_row_run_cycles (q : Nat → String → Option ℚ)
    (d : Nat → Nat → Bool) {s : Store} {a : Alert} (hw : Wf s)
    (ha : a ∈ s.alerts) (hs : a.alert_sent = true) :
    ∀ n, a ∈ (run_cycles q d s n).alerts
  | 0 => ha
  | n + 1 => by
    have hwn := run_cycles_wf q d hw n
    have han := sent_row_run_cycles q d hw ha hs n
    refine run_cycle_row_preserved (q n) (d n) han ?_
    intro b hb hid st
    exfalso
    have hbm := List.mem_filter.mp hb
    have hba : b = a := List.inj_on_of_nodup_map hwn.1 hbm.1 han hid
    rw [hba] at hbm
    simp [hs] at hbm

/-- An alert whose condition string is neither of the two recognized ones
never triggers, so its iteration is always a no-op. -/
lemma process_alert_skip_of_cond (q : String → Option ℚ) (d : Nat → Bool)
    (st : Store × List (Nat × Bool)) {a : Alert}
    (h1 : a.condition ≠ "above") (h2 : a.condition ≠ "below") :
    process_alert q d st a = st :=
  process_alert_skip q d st a (fun p => by simp [triggered, h1, h2])

/-- A Pending alert triggered by its quoted price is committed by the cycle
that fetched it: the delivery attempt is logged, and its row is deleted
(`delete_on_trigger`) or marked sent — regardless of the delivery outcome. -/
lemma run_cycle_commit (q : String → Option ℚ) (d : Nat → Bool)
    {s : Store} {a : Alert} {p : ℚ} (hw : Wf s)
    (ha : a ∈ s.alerts) (hpend : a.alert_sent = false)
    (hq : q a.ticker = some p) (h0 : p ≠ 0)
    (ht : triggered a.condition p a.target_price = true) :
    a.id ∈ logIds (run_cycle q d s).2 ∧
    (a.delete_on_trigger = true → noRow (run_cycle q d s).1.alerts a.id) ∧
    (a.delete_on_trigger = false →
      { a with alert_sent := true } ∈ (run_cycle q d s).1.alerts ∧
      noPending (run_cycle q d s).1.alerts a.id) := by
  have hap : a ∈ list_pending s := List.mem_filter.mpr ⟨ha, by simp [hpend]⟩
  obtain ⟨l₁, l₂, hl⟩ := List.append_of_mem hap
  have hsubP : List.Sublist ((list_pending s).map (fun b => b.id))
      (s.alerts.map (fun b => b.id)) := (List.filter_sublist _).map _
  have hN : ((list_pending s).map (fun b => b.id)).Nodup :=
    List.Nodup.sublist hsubP hw.1
  rw [hl, List.map_append, List.map_cons, List.nodup_append] at hN
  have hna1 : a.id ∉ l₁.map (fun b => b.id) :=
    fun hmem => hN.2.2 hmem (List.mem_cons_self _ _)
  have hna2 : a.id ∉ l₂.map (fun b => b.id) := (List.nodup_cons.mp hN.2.1).1
  set st₁ := l₁.foldl (process_alert q d) (s, []) with hst₁
  have heq : run_cycle q d s = l₂.foldl (process_alert q d)
      (process_alert q d st₁ a) := by
    unfold run_cycle
    rw [hl, List.foldl_append, List.foldl_cons]
  have hmem₁ : a ∈ st₁.1.alerts := by
    rw [hst₁]
    refine foldl_inv (process_alert q d) (fun st => a ∈ st.1.alerts)
      l₁ (s, []) ha ?_
    intro t b hb hI
    have hbid : b.id ≠ a.id := fun he => hna1 (List.mem_map.mpr ⟨b, hb, he⟩)
    rcases process_alert_cases q d t b with hc | ⟨_, hc⟩ | ⟨_, hc⟩
    · rw [hc]; exact hI
    · rw [hc]; exact mem_remove_id_of_ne hI (Ne.symm hbid)
    · rw [hc]; exact mem_mark_sent_of_ne hI (Ne.symm hbid)
  have hstep := process_alert_commits q d st₁ a p hq h0 ht
  rw [heq, hstep]
  by_cases hdot : a.delete_on_trigger = true
  · rw [if_pos hdot]
    have hres := foldl_inv (process_alert q d)
      (fun st => a.id ∈ logIds st.2 ∧ noRow st.1.alerts a.id) l₂
      ({ st₁.1 with alerts := remove_id st₁.1.alerts a.id },
        st₁.2 ++ [(a.id, d a.id)])
      ⟨by rw [logIds_append]; exact List.mem_append_right _ (by simp [logIds]),
        noRow_remove_id_self _ _⟩
      (by
        intro t b _ hI
        rcases process_alert_cases q d t b with hc | ⟨_, hc⟩ | ⟨_, hc⟩
        · rw [hc]; exact hI
        · rw [hc]
          exact ⟨by rw [logIds_append]; exact List.mem_append_left _ hI.1,
            noRow_remove_id _ hI.2⟩
        · rw [hc]
          exact ⟨by rw [logIds_append]; exact List.mem_append_left _ hI.1,
            noRow_mark_sent _ hI.2⟩)
    exact ⟨hres.1, fun _ => hres.2, fun hf => absurd hdot (by rw [hf]; simp)⟩
  · rw [if_neg hdot]
    have hres := foldl_inv (process_alert q d)
      (fun st => a.id ∈ logIds st.2 ∧
        { a with alert_sent := true } ∈ st.1.alerts ∧
        noPending st.1.alerts a.id) l₂
      ({ st₁.1 with alerts := mark_sent st₁.1.alerts a.id },
        st₁.2 ++ [(a.id, d a.id)])
      ⟨by rw [logIds_append]; exact List.mem_append_right _ (by simp [logIds]),
        List.mem_map.mpr ⟨a, hmem₁, by simp⟩,
        noPending_mark_sent_self _ _⟩
      (by
        intro t b hb hI
        have hbid : b.id ≠ a.id := fun he => hna2 (List.mem_map.mpr ⟨b, hb, he⟩)
        rcases process_alert_cases q d t b with hc | ⟨_, hc⟩ | ⟨_, hc⟩
        · rw [hc]; exact hI
        · rw [hc]
          exact ⟨by rw [logIds_append]; exact List.mem_append_left _ hI.1,
            mem_remove_id_of_ne hI.2.1 (Ne.symm hbid),
            noPending_remove_id _ hI.2.2⟩
        · rw [hc]
          exact ⟨by rw [logIds_append]; exact List.mem_append_left _ hI.1,
            mem_mark_sent_of_ne hI.2.1 (Ne.symm hbid),
            noPending_mark_sent _ hI.2.2⟩)
    exact ⟨hres.1, fun hf => absurd hf hdot, fun _ => ⟨hres.2.1, hres.2.2⟩⟩

/-- One iteration's store outcome and logged id do not depend on the
delivery outcomes: the caught notifier exception decides nothing. -/
lemma process_alert_indep (q : String → Option ℚ) (d₁ d₂ : Nat → Bool)
    {st₁ st₂ : Store × List (Nat × Bool)} (a : Alert)
    (h1 : st₁.1 = st₂.1) (h2 : logIds st₁.2 = logIds st₂.2) :
    (process_alert q d₁ st₁ a).1 = (process_alert q d₂ st₂ a).1 ∧
    logIds (process_alert q d₁ st₁ a).2 = logIds (process_alert q d₂ st₂ a).2 := by
  unfold process_alert
  cases q a.ticker with
  | none => exact ⟨h1, h2⟩
  | some p =>
    by_cases h0 : p = 0
    · simp only [if_pos h0]
      exact ⟨h1, h2⟩
    · by_cases ht : triggered a.condition p a.target_price = true
      · by_cases hd : a.delete_on_trigger = true
        · simp only [if_neg h0, if_pos ht, if_pos hd]
          exact ⟨by rw [h1], by rw [logIds_append, logIds_append, h2]; simp [logIds]⟩
        · simp only [if_neg h0, if_pos ht, if_neg hd]
          exact ⟨by rw [h1], by rw [logIds_append, logIds_append, h2]; simp [logIds]⟩
      · simp only [if_neg h0, if_neg ht]
        exact ⟨h1, h2⟩

/-- The store reached by a cycle and the set of ids notified during it are
independent of the delivery outcomes. -/
lemma run_cycle_indep (q : String → Option ℚ) (d₁ d₂ : Nat → Bool) (s : Store) :
    (run_cycle q d₁ s).1 = (run_cycle q d₂ s).1 ∧
    logIds (run_cycle q d₁ s).2 = logIds (run_cycle q d₂ s).2 := by
  suffices h : ∀ (l : List Alert) (st₁ st₂ : Store × List (Nat × Bool)),
      st₁.1 = st₂.1 → logIds st₁.2 = logIds st₂.2 →
      (l.foldl (process_alert q d₁) st₁).1 =
        (l.foldl (process_alert q d₂) st₂).1 ∧
      logIds (l.foldl (process_alert q d₁) st₁).2 =
        logIds (l.foldl (process_alert q d₂) st₂).2 by
    exact h (list_pending s) (s, []) (s, []) rfl rfl
  intro l
  induction l with
  | nil => exact fun st₁ st₂ h1 h2 => ⟨h1, h2⟩
  | cons b t ih =>
    intro st₁ st₂ h1 h2
    have hstep := process_alert_indep q d₁ d₂ b h1 h2
    exact ih _ _ hstep.1 hstep.2

/-- Listing the owner's alerts right after a create: the owner's previous
rows, then the new normalized row. -/
lemma get_alerts_add (s : Store) (phone ticker : String) (price : ℚ)
    (cond : String) (dot : Bool) :
    get_alerts (add_alert s phone ticker price cond dot) phone =
      get_alerts s phone ++
        [⟨s.next_id, phone, ticker.toUpper, price, cond, dot, false⟩] := by
  unfold get_alerts add_alert
  rw [List.filter_append]
  simp

/-- The freshly assigned key is not among the owner's earlier rows. -/
lemma new_row_fresh {s : Store} (hw : Wf s) (phone ticker : String)
    (price : ℚ) (cond : String) (dot : Bool) :
    (⟨s.next_id, phone, ticker.toUpper, price, cond, dot, false⟩ : Alert) ∉
      get_alerts s phone := by
  intro hmem
  have hb := List.mem_of_mem_filter hmem
  have hlt := hw.2 _ hb
  simp at hlt

/-- `app.py` analogue of `get_alerts_add`; the stored ticker carries the
hard-coded `.NS` suffix. -/
lemma app_get_alerts_add (s : AppStore) (phone ticker : String) (price : ℚ)
    (cond : String) :
    app_get_alerts (app_add_alert s phone ticker price cond) phone =
      app_get_alerts s phone ++
        [⟨s.next_id, phone, ticker.toUpper ++ ".NS", price, cond, false⟩] := by
  unfold app_get_alerts app_add_alert
  rw [List.filter_append]
  simp

/-- `app.py` analogue of `new_row_fresh`. -/
lemma app_new_row_fresh {s : AppStore} (hw : WfApp s) (phone ticker : String)
    (price : ℚ) (cond : String) :
    (⟨s.next_id, phone, ticker.toUpper ++ ".NS", price, cond, false⟩ : AppAlert) ∉
      app_get_alerts s phone := by
  intro hmem
  have hb := List.mem_of_mem_filter hmem
  have hlt := hw.2 _ hb
  simp at hlt

lemma above_beq_below : ("above" == "below") = false := by decide

lemma below_beq_above : ("below" == "above") = false := by decide

instance (s : Store) : Decidable (Wf s) := by
  unfold Wf; infer_instance

instance (s : AppStore) : Decidable (WfApp s) := by
  unfold WfApp; infer_instance

instance (l : List Alert) (i : Nat) : Decidable (noPending l i) := by
  unfold noPending; infer_instance

instance (l : List Alert) (i : Nat) : Decidable (noRow l i) := by
  unfold noRow; infer_instance

/-- Creating an alert keeps the table well-formed. -/
lemma wf_add_alert {s : Store} (hw : Wf s) (phone ticker : String)
    (price : ℚ) (cond : String) (dot : Bool) :
    Wf (add_alert s phone ticker price cond dot) := by
  have h1 : (add_alert s phone ticker price cond dot).alerts =
      s.alerts ++ [⟨s.next_id, phone, ticker.toUpper, price, cond, dot, false⟩] :=
    rfl
  have h2 : (add_alert s phone ticker price cond dot).next_id =
      s.next_id + 1 := rfl
  constructor
  · rw [h1, List.map_append, List.nodup_append]
    refine ⟨hw.1, by simp, ?_⟩
    intro x hx hmem
    rcases List.mem_map.mp hx with ⟨b, hb, hbid⟩
    have hlt := hw.2 b hb
    simp at hmem
    omega
  · intro b hb
    rw [h1] at hb
    rw [h2]
    rcases List.mem_append.mp hb with h | h
    · have := hw.2 b h
      omega
    · simp at h
      rw [h]
      simp

/-! ## The claims -/

/-- C1: for every comparison kind and every pair of prices, the condition
evaluation returns true for AboveOrEqual (`'above'`) iff
`observed_price >= target_price` and for BelowOrEqual (`'below'`) iff
`observed_price <= target_price`; at `observed_price == target_price` both
comparison kinds trigger.  Holds of both evaluators: `backend.py`'s
`triggered` expression and `price_checker.py`'s `alert_triggered` chain. -/
theorem evaluate_matches_truth_table (price target : ℚ) :
    (triggered "above" price target = true ↔ price ≥ target) ∧
    (triggered "below" price target = true ↔ price ≤ target) ∧
    (alert_triggered "above" price target = true ↔ price ≥ target) ∧
    (alert_triggered "below" price target = true ↔ price ≤ target) ∧
    triggered "above" target target = true ∧
    triggered "below" target target = true ∧
    alert_triggered "above" target target = true ∧
    alert_triggered "below" target target = true := by
  simp [triggered, alert_triggered, above_beq_below, below_beq_above]

/-- C2 counterexample: one Pending alert (id 0, target 100, comparison
`'above'`), quote 105, and a notifier that fails (`deliver_ok` constantly
false).  The claim says a failed delivery leaves the alert Pending; in the
code the `except` clause swallows the error and the commit runs anyway, so
after the cycle exactly one (failed) delivery attempt is logged and the
alert is nonetheless marked Triggered (`alert_sent = true`). -/
theorem delivery_failure_still_completes_cex :
    (run_cycle (fun t => if t == "TCS" then some 105 else none)
        (fun _ => false)
        ⟨[⟨0, "p", "TCS", 100, "above", false, false⟩], 1⟩).2
      = [(0, false)] ∧
    (run_cycle (fun t => if t == "TCS" then some 105 else none)
        (fun _ => false)
        ⟨[⟨0, "p", "TCS", 100, "above", false, false⟩], 1⟩).1.alerts
      = [⟨0, "p", "TCS", 100, "above", false, true⟩] := by
  exact ⟨rfl, rfl⟩

/-- C2 (amended): for every triggered alert, the delivery attempt happens
during the cycle, but the completion mutation is applied whether or not
delivery succeeds: the store a cycle produces and the set of ids it
notifies are independent of the delivery outcomes, and a triggered alert
never stays Pending — delivery failure is not retried. -/
theorem commit_independent_of_delivery (q : String → Option ℚ)
    (d₁ d₂ : Nat → Bool) (s : Store) (a : Alert) (p : ℚ) (hw : Wf s)
    (ha : a ∈ s.alerts) (hpend : a.alert_sent = false)
    (hq : q a.ticker = some p) (h0 : p ≠ 0)
    (ht : triggered a.condition p a.target_price = true) :
    (run_cycle q d₁ s).1 = (run_cycle q d₂ s).1 ∧
    logIds (run_cycle q d₁ s).2 = logIds (run_cycle q d₂ s).2 ∧
    a.id ∈ logIds (run_cycle q d₁ s).2 ∧
    noPending (run_cycle q d₁ s).1.alerts a.id := by
  have hi := run_cycle_indep q d₁ d₂ s
  have hc := run_cycle_commit q d₁ hw ha hpend hq h0 ht
  refine ⟨hi.1, hi.2, hc.1, ?_⟩
  by_cases hdot : a.delete_on_trigger = true
  · exact noPending_of_noRow (hc.2.1 hdot)
  · exact (hc.2.2 (by simpa using hdot)).2

/-- Witness for C2 (amended) at a concrete input: the triggered alert of
`delivery_failure_still_completes_cex`, with failing versus succeeding
notifier. -/
theorem commit_independent_of_delivery_witness :
    (run_cycle (fun t => if t == "TCS" then some 105 else none)
        (fun _ => false)
        ⟨[⟨0, "p", "TCS", 100, "above", false, false⟩], 1⟩).1 =
      (run_cycle (fun t => if t == "TCS" then some 105 else none)
        (fun _ => true)
        ⟨[⟨0, "p", "TCS", 100, "above", false, false⟩], 1⟩).1 ∧
    logIds (run_cycle (fun t => if t == "TCS" then some 105 else none)
        (fun _ => false)
        ⟨[⟨0, "p", "TCS", 100, "above", false, false⟩], 1⟩).2 =
      logIds (run_cycle (fun t => if t == "TCS" then some 105 else none)
        (fun _ => true)
        ⟨[⟨0, "p", "TCS", 100, "above", false, false⟩], 1⟩).2 ∧
    (0 : Nat) ∈ logIds (run_cycle (fun t => if t == "TCS" then some 105 else none)
        (fun _ => false)
        ⟨[⟨0, "p", "TCS", 100, "above", false, false⟩], 1⟩).2 ∧
    noPending (run_cycle (fun t => if t == "TCS" then some 105 else none)
        (fun _ => false)
        ⟨[⟨0, "p", "TCS", 100, "above", false, false⟩], 1⟩).1.alerts 0 :=
  commit_independent_of_delivery
    (fun t => if t == "TCS" then some 105 else none) (fun _ => false)
    (fun _ => true) ⟨[⟨0, "p", "TCS", 100, "above", false, false⟩], 1⟩
    ⟨0, "p", "TCS", 100, "above", false, false⟩ 105
    (by decide) (by decide) rfl rfl (by decide) (by decide)

/-- C5 counterexample: `add_alert` with an empty owner address, an empty
instrument and a non-positive target price succeeds and stores the row —
there is no `InvalidArgument` path in the code. -/
theorem create_accepts_invalid_input_cex :
    ((add_alert ⟨[], 0⟩ "" "" (-5) "above" false).alerts.map
      (fun a => (a.user_phone_number, a.target_price))) = [("", -5)] ∧
    (-5 : ℚ) ≤ 0 ∧ ("" : String).length = 0 := by
  exact ⟨rfl, by decide, rfl⟩

/-- C5 (amended): the create operation performs no validation at all: for
every input — including non-positive prices and empty owner or instrument
strings — it succeeds, appending exactly one new Pending row with a fresh
primary key and leaving the table well-formed. -/
theorem create_never_fails (s : Store) (phone ticker : String) (price : ℚ)
    (cond : String) (dot : Bool) (hw : Wf s) :
    (add_alert s phone ticker price cond dot).alerts =
      s.alerts ++ [⟨s.next_id, phone, ticker.toUpper, price, cond, dot, false⟩] ∧
    (add_alert s phone ticker price cond dot).next_id = s.next_id + 1 ∧
    s.next_id ∉ s.alerts.map (fun b => b.id) ∧
    Wf (add_alert s phone ticker price cond dot) := by
  refine ⟨rfl, rfl, ?_, wf_add_alert hw phone ticker price cond dot⟩
  intro hmem
  rcases List.mem_map.mp hmem with ⟨b, hb, hbid⟩
  exact absurd (hw.2 b hb) (by omega)

/-- Witness for C5 (amended) at the invalid input of the counterexample:
creation still succeeds on the empty store. -/
theorem create_never_fails_witness :
    (add_alert ⟨[], 0⟩ "" "" (-5) "above" false).alerts =
      ([] : List Alert) ++ [⟨0, "", "".toUpper, -5, "above", false, false⟩] ∧
    (add_alert ⟨[], 0⟩ "" "" (-5) "above" false).next_id = 0 + 1 ∧
    (0 : Nat) ∉ ([] : List Alert).map (fun b => b.id) ∧
    Wf (add_alert ⟨[], 0⟩ "" "" (-5) "above" false) :=
  create_never_fails ⟨[], 0⟩ "" "" (-5) "above" false (by decide)

/-- C6 counterexample: in `app.py` the stored instrument is the uppercased
symbol with a hard-coded `.NS` suffix appended, so the listed row does not
equal the created fields under normalization-is-exactly-uppercasing. -/
theorem normalization_not_only_uppercase_cex :
    ((app_get_alerts (app_add_alert ⟨[], 1⟩ "p" "tcs" 100 "above") "p").map
      (fun a => a.ticker)) = ["tcs".toUpper ++ ".NS"] ∧
    "tcs".toUpper ++ ".NS" ≠ "tcs".toUpper := by
  refine ⟨rfl, ?_⟩
  intro h
  have h2 := congrArg String.length h
  simp [String.length_append] at h2
  exact absurd h2 (by decide)

/-- C6 (amended): an alert created with valid fields appears in the owner's
list exactly once with its fields as created after normalization — where
normalization is uppercasing the instrument in `backend.py`, and
uppercasing plus appending the `.NS` suffix in `app.py`. -/
theorem create_list_roundtrip (s : Store) (s2 : AppStore)
    (phone ticker : String) (price : ℚ) (cond : String) (dot : Bool)
    (hw : Wf s) (hw2 : WfApp s2) :
    List.count
        (⟨s.next_id, phone, ticker.toUpper, price, cond, dot, false⟩ : Alert)
        (get_alerts (add_alert s phone ticker price cond dot) phone) = 1 ∧
    List.count
        (⟨s2.next_id, phone, ticker.toUpper ++ ".NS", price, cond, false⟩ : AppAlert)
        (app_get_alerts (app_add_alert s2 phone ticker price cond) phone) = 1 := by
  constructor
  · rw [get_alerts_add, List.count_append]
    rw [List.count_eq_zero.mpr (new_row_fresh hw phone ticker price cond dot)]
    simp
  · rw [app_get_alerts_add, List.count_append]
    rw [List.count_eq_zero.mpr (app_new_row_fresh hw2 phone ticker price cond)]
    simp

/-- Witness for C6 (amended) at a concrete creation on empty stores. -/
theorem create_list_roundtrip_witness :
    List.count (⟨0, "p", "tcs".toUpper, 100, "above", false, false⟩ : Alert)
        (get_alerts (add_alert ⟨[], 0⟩ "p" "tcs" 100 "above" false) "p") = 1 ∧
    List.count (⟨0, "p", "tcs".toUpper ++ ".NS", 100, "above", false⟩ : AppAlert)
        (app_get_alerts (app_add_alert ⟨[], 0⟩ "p" "tcs" 100 "above") "p") = 1 :=
  create_list_roundtrip ⟨[], 0⟩ ⟨[], 0⟩ "p" "tcs" 100 "above" false
    (by decide) (by decide)

/-- C4: once an alert is Triggered (`alert_sent = true`) it is excluded
from every cycle's Pending fetch, survives every later cycle verbatim, and
is never notified again; across cycles any id is notified during at most
one cycle, and within one cycle at most once. -/
theorem triggered_never_reevaluated (s : Store)
    (q : Nat → String → Option ℚ) (d : Nat → Nat → Bool) (hwf : Wf s) :
    (∀ a ∈ s.alerts, a.alert_sent = true →
      a ∉ list_pending s ∧
      (∀ n, a ∈ (run_cycles q d s n).alerts ∧
        a.id ∉ logIds (cycle_log q d s n))) ∧
    (∀ i n m, n < m → i ∈ logIds (cycle_log q d s n) →
      i ∉ logIds (cycle_log q d s m)) ∧
    (∀ n, (logIds (cycle_log q d s n)).Nodup) := by
  refine ⟨?_, ?_, cycle_log_nodup q d hwf⟩
  · intro a ha hs
    refine ⟨?_, ?_⟩
    · intro hmem
      have := (List.mem_filter.mp hmem).2
      simp [hs] at this
    · intro n
      exact ⟨sent_row_run_cycles q d hwf ha hs n,
        cycle_log_not_notified q d (noPending_of_sent hwf ha hs) n⟩
  · intro i n m hnm h
    exact notified_at_most_once q d s i hnm h

/-- Witness for C4 at a concrete store holding one Triggered alert. -/
theorem triggered_never_reevaluated_witness :
    (∀ a ∈ (⟨[⟨0, "p", "TCS", 100, "above", false, true⟩], 1⟩ : Store).alerts,
      a.alert_sent = true →
      a ∉ list_pending ⟨[⟨0, "p", "TCS", 100, "above", false, true⟩], 1⟩ ∧
      (∀ n, a ∈ (run_cycles (fun _ _ => none) (fun _ _ => true)
          ⟨[⟨0, "p", "TCS", 100, "above", false, true⟩], 1⟩ n).alerts ∧
        a.id ∉ logIds (cycle_log (fun _ _ => none) (fun _ _ => true)
          ⟨[⟨0, "p", "TCS", 100, "above", false, true⟩], 1⟩ n))) ∧
    (∀ i n m, n < m →
      i ∈ logIds (cycle_log (fun _ _ => none) (fun _ _ => true)
        ⟨[⟨0, "p", "TCS", 100, "above", false, true⟩], 1⟩ n) →
      i ∉ logIds (cycle_log (fun _ _ => none) (fun _ _ => true)
        ⟨[⟨0, "p", "TCS", 100, "above", false, true⟩], 1⟩ m)) ∧
    (∀ n, (logIds (cycle_log (fun _ _ => none) (fun _ _ => true)
      ⟨[⟨0, "p", "TCS", 100, "above", false, true⟩], 1⟩ n)).Nodup) :=
  triggered_never_reevaluated ⟨[⟨0, "p", "TCS", 100, "above", false, true⟩], 1⟩
    (fun _ _ => none) (fun _ _ => true) (by decide)

/-- Spec §8 scenario: target 100, comparison AboveOrEqual, prices 90 then
100 then 105 — no trigger on the first cycle, the single notification on
the second (boundary equality), the alert Triggered and never evaluated
again. -/
example :
    logIds (cycle_log
      (fun n _ => if n = 0 then some 90 else if n = 1 then some 100 else some 105)
      (fun _ _ => true) ⟨[⟨0, "p", "TCS", 100, "above", false, false⟩], 1⟩ 0) = [] ∧
    logIds (cycle_log
      (fun n _ => if n = 0 then some 90 else if n = 1 then some 100 else some 105)
      (fun _ _ => true) ⟨[⟨0, "p", "TCS", 100, "above", false, false⟩], 1⟩ 1) = [0] ∧
    logIds (cycle_log
      (fun n _ => if n = 0 then some 90 else if n = 1 then some 100 else some 105)
      (fun _ _ => true) ⟨[⟨0, "p", "TCS", 100, "above", false, false⟩], 1⟩ 2) = [] ∧
    (run_cycles
      (fun n _ => if n = 0 then some 90 else if n = 1 then some 100 else some 105)
      (fun _ _ => true) ⟨[⟨0, "p", "TCS", 100, "above", false, false⟩], 1⟩ 3).alerts =
      [⟨0, "p", "TCS", 100, "above", false, true⟩] := by
  refine ⟨rfl, rfl, rfl, rfl⟩

/-- C7: a triggered alert with `delete_on_trigger` has its row removed by
the committing cycle — afterwards absent from `list_pending` and from every
owner listing; without `delete_on_trigger` the row instead becomes
Triggered (`alert_sent = true`).  The two outcomes are governed by the
boolean, so exactly one occurs. -/
theorem delete_on_trigger_outcomes (q : String → Option ℚ) (d : Nat → Bool)
    (s : Store) (a : Alert) (p : ℚ) (hw : Wf s) (ha : a ∈ s.alerts)
    (hpend : a.alert_sent = false) (hq : q a.ticker = some p) (h0 : p ≠ 0)
    (ht : triggered a.condition p a.target_price = true) :
    (a.delete_on_trigger = true →
      noRow (run_cycle q d s).1.alerts a.id ∧
      a.id ∉ (list_pending (run_cycle q d s).1).map (fun b => b.id) ∧
      ∀ phone, a.id ∉ (get_alerts (run_cycle q d s).1 phone).map (fun b => b.id)) ∧
    (a.delete_on_trigger = false →
      { a with alert_sent := true } ∈ (run_cycle q d s).1.alerts ∧
      noPending (run_cycle q d s).1.alerts a.id) := by
  have hc := run_cycle_commit q d hw ha hpend hq h0 ht
  refine ⟨?_, hc.2.2⟩
  intro hdot
  have hnr := hc.2.1 hdot
  refine ⟨hnr, ?_, ?_⟩
  · intro hmem
    rcases List.mem_map.mp hmem with ⟨b, hb, hbid⟩
    exact hnr b (List.mem_of_mem_filter hb) hbid
  · intro phone hmem
    rcases List.mem_map.mp hmem with ⟨b, hb, hbid⟩
    exact hnr b (List.mem_of_mem_filter hb) hbid

/-- Witness for C7 at the spec §8 scenario: `delete_on_trigger = true`,
target 50, comparison BelowOrEqual, price 40. -/
theorem delete_on_trigger_outcomes_witness :
    ((⟨0, "p", "TCS", 50, "below", true, false⟩ : Alert).delete_on_trigger = true →
      noRow (run_cycle (fun t => if t == "TCS" then some 40 else none)
        (fun _ => true) ⟨[⟨0, "p", "TCS", 50, "below", true, false⟩], 1⟩).1.alerts 0 ∧
      (0 : Nat) ∉ (list_pending (run_cycle
        (fun t => if t == "TCS" then some 40 else none) (fun _ => true)
        ⟨[⟨0, "p", "TCS", 50, "below", true, false⟩], 1⟩).1).map (fun b => b.id) ∧
      ∀ phone, (0 : Nat) ∉ (get_alerts (run_cycle
        (fun t => if t == "TCS" then some 40 else none) (fun _ => true)
        ⟨[⟨0, "p", "TCS", 50, "below", true, false⟩], 1⟩).1 phone).map
          (fun b => b.id)) ∧
    ((⟨0, "p", "TCS", 50, "below", true, false⟩ : Alert).delete_on_trigger = false →
      ({ (⟨0, "p", "TCS", 50, "below", true, false⟩ : Alert) with
          alert_sent := true } : Alert) ∈ (run_cycle
        (fun t => if t == "TCS" then some 40 else none) (fun _ => true)
        ⟨[⟨0, "p", "TCS", 50, "below", true, false⟩], 1⟩).1.alerts ∧
      noPending (run_cycle (fun t => if t == "TCS" then some 40 else none)
        (fun _ => true)
        ⟨[⟨0, "p", "TCS", 50, "below", true, false⟩], 1⟩).1.alerts 0) :=
  delete_on_trigger_outcomes (fun t => if t == "TCS" then some 40 else none)
    (fun _ => true) ⟨[⟨0, "p", "TCS", 50, "below", true, false⟩], 1⟩
    ⟨0, "p", "TCS", 50, "below", true, false⟩ 40
    (by decide) (by decide) rfl rfl (by decide) (by decide)

/-- C8: deleting a present id removes exactly that alert — its id then
appears in no `list_by_owner` or `list_pending` result — while deleting an
absent id returns the distinguishable not-found outcome and leaves the
store untouched. -/
theorem delete_semantics (s : Store) (i : Nat) :
    ((∀ a ∈ s.alerts, a.id ≠ i) → delete_alert s i = (s, DeleteResult.notFound)) ∧
    (∀ a ∈ s.alerts, a.id = i →
      (delete_alert s i).2 = DeleteResult.deleted ∧
      noRow (delete_alert s i).1.alerts i ∧
      (∀ phone, i ∉ (get_alerts (delete_alert s i).1 phone).map (fun b => b.id)) ∧
      i ∉ (list_pending (delete_alert s i).1).map (fun b => b.id) ∧
      (delete_alert s i).1.next_id = s.next_id) := by
  constructor
  · intro h
    unfold delete_alert
    rw [List.find?_eq_none.mpr (fun x hx => by simp [h x hx])]
  · intro a ha hid
    have hsome : ∃ b, s.alerts.find? (fun b => b.id == i) = some b := by
      rw [← Option.isSome_iff_exists, List.find?_isSome]
      exact ⟨a, ha, by simp [hid]⟩
    rcases hsome with ⟨b, hf⟩
    have hd : delete_alert s i =
        ({ s with alerts := s.alerts.filter (fun c => c.id ≠ i) },
          DeleteResult.deleted) := by
      unfold delete_alert
      rw [hf]
    rw [hd]
    have hnr : noRow (s.alerts.filter (fun c => c.id ≠ i)) i := by
      intro c hc
      simpa using List.of_mem_filter hc
    refine ⟨rfl, hnr, ?_, ?_, rfl⟩
    · intro phone hmem
      rcases List.mem_map.mp hmem with ⟨c, hc, hcid⟩
      exact hnr c (List.mem_of_mem_filter hc) hcid
    · intro hmem
      rcases List.mem_map.mp hmem with ⟨c, hc, hcid⟩
      exact hnr c (List.mem_of_mem_filter hc) hcid

/-- C9 counterexample: two alerts of one owner inserted with tickers out of
alphabetical order come back from the owner listing in table order — not
sorted by instrument then id as the claim states. -/
theorem list_by_owner_unsorted_cex :
    get_alerts ⟨[⟨1, "p", "ZZZ", 10, "above", false, false⟩,
                 ⟨2, "p", "AAA", 10, "above", false, false⟩], 3⟩ "p" =
      [⟨1, "p", "ZZZ", 10, "above", false, false⟩,
       ⟨2, "p", "AAA", 10, "above", false, false⟩] ∧
    ¬ sortedByInstrumentThenId
      [⟨1, "p", "ZZZ", 10, "above", false, false⟩,
       ⟨2, "p", "AAA", 10, "above", false, false⟩] := by
  exact ⟨rfl, by decide⟩

/-- C9 (amended): `list_by_owner` returns exactly the owner's alerts —
every returned alert belongs to the owner and every alert of the owner is
returned — in stable table (insertion) order, with no instrument-then-id
sorting applied. -/
theorem list_by_owner_ownership_order (s : Store) (phone : String) :
    (∀ a ∈ get_alerts s phone, a.user_phone_number = phone) ∧
    (∀ a ∈ s.alerts, a.user_phone_number = phone → a ∈ get_alerts s phone) ∧
    List.Sublist (get_alerts s phone) s.alerts := by
  refine ⟨?_, ?_, List.filter_sublist _⟩
  · intro a ha
    have := (List.mem_filter.mp ha).2
    simpa using this
  · intro a ha h
    exact List.mem_filter.mpr ⟨ha, by simp [h]⟩

/-- A Pending alert whose condition string is unrecognized passes through a
cycle untouched and unnotified. -/
lemma unknown_cond_cycle_invariant (q1 : String → Option ℚ) (d1 : Nat → Bool)
    {s : Store} {a : Alert} (hw : Wf s) (ha : a ∈ s.alerts)
    (h1 : a.condition ≠ "above") (h2 : a.condition ≠ "below") :
    a ∈ (run_cycle q1 d1 s).1.alerts ∧ a.id ∉ logIds (run_cycle q1 d1 s).2 := by
  have hself : ∀ b ∈ list_pending s, b.id = a.id →
      ∀ st, process_alert q1 d1 st b = st := by
    intro b hb hid st
    have hba : b = a :=
      List.inj_on_of_nodup_map hw.1 (List.mem_of_mem_filter hb) ha hid
    rw [hba]
    exact process_alert_skip_of_cond q1 d1 st h1 h2
  exact ⟨run_cycle_row_preserved q1 d1 ha hself,
    run_cycle_not_notified_of_skip q1 d1 hself⟩

/-- C10: create accepts any condition string (no validation), and an alert
whose condition is neither `'above'` nor `'below'` never triggers for any
prices: it is never notified, never marked sent, never deleted by the loop,
and is fetched as Pending by every cycle indefinitely. -/
theorem unknown_condition_never_triggers (s : Store)
    (q : Nat → String → Option ℚ) (d : Nat → Nat → Bool) (a : Alert)
    (hw : Wf s) (ha : a ∈ s.alerts) (hpend : a.alert_sent = false)
    (h1 : a.condition ≠ "above") (h2 : a.condition ≠ "below") :
    (∀ p t : ℚ, triggered a.condition p t = false) ∧
    (∀ (s2 : Store) (phone ticker : String) (price : ℚ) (dot : Bool),
      (⟨s2.next_id, phone, ticker.toUpper, price, a.condition, dot, false⟩ : Alert) ∈
        (add_alert s2 phone ticker price a.condition dot).alerts) ∧
    (∀ n, a ∈ (run_cycles q d s n).alerts ∧
      a ∈ list_pending (run_cycles q d s n) ∧
      a.id ∉ logIds (cycle_log q d s n)) := by
  refine ⟨fun p t => by simp [triggered, h1, h2], ?_, ?_⟩
  · intro s2 phone ticker price dot
    have : (add_alert s2 phone ticker price a.condition dot).alerts =
        s2.alerts ++
          [⟨s2.next_id, phone, ticker.toUpper, price, a.condition, dot, false⟩] :=
      rfl
    rw [this]
    exact List.mem_append_right _ (List.mem_singleton.mpr rfl)
  · have key : ∀ n, a ∈ (run_cycles q d s n).alerts := by
      intro n
      induction n with
      | zero => exact ha
      | succ n ih =>
        exact (unknown_cond_cycle_invariant (q n) (d n)
          (run_cycles_wf q d hw n) ih h1 h2).1
    intro n
    refine ⟨key n, List.mem_filter.mpr ⟨key n, by simp [hpend]⟩, ?_⟩
    exact (unknown_cond_cycle_invariant (q n) (d n)
      (run_cycles_wf q d hw n) (key n) h1 h2).2

/-- Witness for C10: one alert stored with the condition string `'gte'`
(which `add_alert` accepted unvalidated) and a quote source always
returning 105. -/
theorem unknown_condition_never_triggers_witness :
    (∀ p t : ℚ,
      triggered (⟨0, "p", "TCS", 100, "gte", false, false⟩ : Alert).condition p t
        = false) ∧
    (∀ (s2 : Store) (phone ticker : String) (price : ℚ) (dot : Bool),
      (⟨s2.next_id, phone, ticker.toUpper, price,
        (⟨0, "p", "TCS", 100, "gte", false, false⟩ : Alert).condition, dot,
        false⟩ : Alert) ∈
        (add_alert s2 phone ticker price
          (⟨0, "p", "TCS", 100, "gte", false, false⟩ : Alert).condition
          dot).alerts) ∧
    (∀ n, (⟨0, "p", "TCS", 100, "gte", false, false⟩ : Alert) ∈
        (run_cycles (fun _ t => if t == "TCS" then some 105 else none)
          (fun _ _ => true)
          ⟨[⟨0, "p", "TCS", 100, "gte", false, false⟩], 1⟩ n).alerts ∧
      (⟨0, "p", "TCS", 100, "gte", false, false⟩ : Alert) ∈
        list_pending (run_cycles (fun _ t => if t == "TCS" then some 105 else none)
          (fun _ _ => true)
          ⟨[⟨0, "p", "TCS", 100, "gte", false, false⟩], 1⟩ n) ∧
      (⟨0, "p", "TCS", 100, "gte", false, false⟩ : Alert).id ∉
        logIds (cycle_log (fun _ t => if t == "TCS" then some 105 else none)
          (fun _ _ => true)
          ⟨[⟨0, "p", "TCS", 100, "gte", false, false⟩], 1⟩ n)) :=
  unknown_condition_never_triggers
    ⟨[⟨0, "p", "TCS", 100, "gte", false, false⟩], 1⟩
    (fun _ t => if t == "TCS" then some 105 else none) (fun _ _ => true)
    ⟨0, "p", "TCS", 100, "gte", false, false⟩
    (by decide) (by decide) (by decide) (by decide) (by decide)

end ParamStock
